import Mathlib

/-!
Shallow embedding of the ShakeyBot chess engine core (C++ sources under
`src/`), restricted to the parts needed by the verified claims:

* the transposition table (`src/src/transposition.cpp`,
  `src/include/fast_engine/transposition.hpp`);
* the UCI time-budget computation (`src/src/engine.cpp`,
  `compute_time_budget`);
* the aspiration-window loop of the iterative deepener
  (`src/src/engine.cpp`, `Engine::search_position_impl`);
* UCI score formatting (`src/apps/fast_engine_uci.cpp`,
  `score_to_mate_moves` / `append_uci_score`);
* the best-move fallback logic of the UCI driver
  (`src/apps/fast_engine_uci.cpp`, `ensure_legal_or_fallback`,
  `pick_fallback_legal_move`).

Machine integers are modelled as `Nat`/`Int`; `% 2 ^ 64` (resp. `% 256`)
is inserted exactly where the C++ `size_t` (resp. `uint8_t`) arithmetic
can wrap.  C++ `int` division (truncation toward zero) is `Int.tdiv`.
-/

namespace FastEngine

/-- Score constants from `include/fast_engine/types.hpp`:
`SCORE_INF = 10^9`, `MATE_SCORE = 10^6`, `MATE_BOUND = MATE_SCORE - 1000`. -/
def SCORE_INF : Int := 1000000000

def MATE_SCORE : Int := 1000000

def MATE_BOUND : Int := MATE_SCORE - 1000

/-- TT bound flags (`enum TTFlag`): `TT_EXACT = 0`, `TT_LOWERBOUND = 1`,
`TT_UPPERBOUND = 2`; stored as `uint8_t`, modelled as `Nat`. -/
def TT_EXACT : Nat := 0

def TT_LOWERBOUND : Nat := 1

def TT_UPPERBOUND : Nat := 2

/-- `chess::Move::NO_MOVE` — the reserved 16-bit move value `0`. -/
def NO_MOVE : Nat := 0

/-- Logical TT entry (`struct TTEntry`).  `key` is the 64-bit Zobrist hash,
`depth` a C++ `int`, `value` a `Score` (`int32`), `bestMove` the raw 16-bit
move (`chess::Move::move()`), `hasMove` its validity flag. -/
structure TTEntry where
  key : Nat
  depth : Int
  flag : Nat
  value : Int
  bestMove : Nat
  hasMove : Bool
deriving DecidableEq

/-- Packed stored TT entry (`struct PackedEntry`, 12 bytes):
`value_cp : int32`, `key16 : uint16`, `move16 : uint16`,
`depth : int8` (−1 = empty), `flag : uint8`, `gen : uint8`,
`hasMove : uint8` (0/1).  The C++ default (`PackedEntry{}`) zeroes every
field except `depth = -1`. -/
structure PackedEntry where
  value_cp : Int := 0
  key16 : Nat := 0
  move16 : Nat := 0
  depth : Int := -1
  flag : Nat := 0
  gen : Nat := 0
  hasMove : Nat := 0
deriving DecidableEq

instance : Inhabited PackedEntry := ⟨{}⟩

/-- A TT bucket is a fixed array of `CLUSTER_SIZE = 4` packed entries;
modelled as a list built with length 4 (`Bucket{}` =
`List.replicate 4 default`). -/
abbrev Bucket : Type := List PackedEntry

/-- The default-constructed bucket `Bucket{}`: 4 empty packed entries. -/
def emptyBucket : Bucket := List.replicate 4 default

/-- `TranspositionTable` state: the bucket vector `table_`, the index mask
`mask_`, the capacity `capacity_entries_`, and the generation tag `gen_`
(a `uint8_t`, kept in `[0,255]` by the `% 256` in `clear`). -/
structure TTState where
  table : List Bucket
  mask : Nat
  capacity_entries : Nat
  gen : Nat
deriving DecidableEq

/-- `key_signature16`: top 16 bits of the 64-bit hash
(`static_cast<uint16_t>(key >> 48)`). -/
def key_signature16 (key : Nat) : Nat := (key >>> 48) % 65536

/-- Bucket lookup `table_[idx]` (in the source `idx ≤ mask_ < table_.size()`
always holds; out-of-range reads never occur on the paths we model). -/
def bucketAt (s : TTState) (idx : Nat) : Bucket := s.table.getD idx default

/-- The slot filter used by `probe` (and by pass 1 of `store`): current
generation, valid depth, matching key signature. -/
def slotMatch (g sig : Nat) (pe : PackedEntry) : Prop :=
  pe.gen = g ∧ 0 ≤ pe.depth ∧ pe.key16 = sig

instance (g sig : Nat) (pe : PackedEntry) : Decidable (slotMatch g sig pe) :=
  inferInstanceAs (Decidable (_ ∧ _ ∧ _))

/-- The logical entry `probe` builds from a matching packed slot
(`out.bestMove` stays default-constructed, i.e. `NO_MOVE`, when the slot
has no move). -/
def entryOut (key : Nat) (pe : PackedEntry) : TTEntry :=
  { key := key
    depth := pe.depth
    flag := pe.flag
    value := pe.value_cp
    hasMove := pe.hasMove ≠ 0
    bestMove := if pe.hasMove ≠ 0 then pe.move16 else NO_MOVE }

/-- The in-bucket scan of `TranspositionTable::probe`: first slot passing
the generation / depth / signature filters wins. -/
def probeBucket (g sig key : Nat) : List PackedEntry → Option TTEntry
  | [] => none
  | pe :: rest =>
    if slotMatch g sig pe then some (entryOut key pe) else probeBucket g sig key rest

/-- `TranspositionTable::probe`. -/
def probe (s : TTState) (key : Nat) : Option TTEntry :=
  if s.table = [] then none
  else
    probeBucket s.gen (key_signature16 key) key (bucketAt s (key &&& s.mask))

/-- `std::clamp(entry.depth, 0, 127)` as used by `store`. -/
def clampDepth (d : Int) : Int := if d < 0 then 0 else if 127 < d then 127 else d

/-- The `write` lambda of `store`: overwrite a packed slot with `entry`
under the current generation. -/
def writeEntry (g sig : Nat) (e : TTEntry) : PackedEntry :=
  { gen := g
    key16 := sig
    depth := clampDepth e.depth
    flag := e.flag
    value_cp := e.value
    hasMove := if e.hasMove then 1 else 0
    move16 := if e.hasMove then e.bestMove else NO_MOVE }

/-- Pass 1 of `store`: if a current-generation valid slot with the same
signature exists, update it smartly (replace iff strictly deeper, or equal
depth and new EXACT over old non-EXACT; otherwise only fill in a missing
best move) and stop.  Returns `none` when no slot matches. -/
def tryUpdateSame (g sig : Nat) (e : TTEntry) : List PackedEntry → Option (List PackedEntry)
  | [] => none
  | pe :: rest =>
    if slotMatch g sig pe then
      let replace := pe.depth < e.depth ∨ (e.depth = pe.depth ∧ e.flag = TT_EXACT ∧ pe.flag ≠ TT_EXACT)
      if replace then some (writeEntry g sig e :: rest)
      else if e.hasMove ∧ pe.hasMove = 0 then
        some ({ pe with hasMove := 1, move16 := e.bestMove } :: rest)
      else some (pe :: rest)
    else (tryUpdateSame g sig e rest).map (pe :: ·)

/-- Pass 2 of `store`: write into the first invalid / stale-generation slot. -/
def tryWriteEmpty (g sig : Nat) (e : TTEntry) : List PackedEntry → Option (List PackedEntry)
  | [] => none
  | pe :: rest =>
    if pe.gen ≠ g ∨ pe.depth < 0 then some (writeEntry g sig e :: rest)
    else (tryWriteEmpty g sig e rest).map (pe :: ·)

/-- Replacement quality from pass 3 of `store`
(lower = more replaceable). -/
def quality (g : Nat) (pe : PackedEntry) : Int :=
  if pe.depth < 0 then -1000000
  else
    pe.depth * 4 + (if pe.flag = TT_EXACT then 2 else 0) +
        (if pe.hasMove ≠ 0 then 1 else 0) -
      (if pe.gen ≠ g then 1000 else 0)

/-- The victim scan of pass 3: index of the first slot of strictly minimal
quality (the C++ loop starts at `&e[0]` and updates only on `q < victimQ`). -/
def victimAux (g : Nat) : List PackedEntry → Nat → Nat → Int → Nat
  | [], _, best, _ => best
  | pe :: rest, i, best, bestQ =>
    if quality g pe < bestQ then victimAux g rest (i + 1) i (quality g pe)
    else victimAux g rest (i + 1) best bestQ

def victimIdx (g : Nat) (l : List PackedEntry) : Nat :=
  victimAux g l 0 0 (quality g (l.headD default))

/-- The full in-bucket logic of `TranspositionTable::store`. -/
def storeBucket (g sig : Nat) (e : TTEntry) (b : List PackedEntry) : List PackedEntry :=
  match tryUpdateSame g sig e b with
  | some nb => nb
  | none =>
    match tryWriteEmpty g sig e b with
    | some nb => nb
    | none => b.set (victimIdx g b) (writeEntry g sig e)

/-- `TranspositionTable::store`. -/
def store (s : TTState) (e : TTEntry) : TTState :=
  if s.table = [] then s
  else
    let idx := e.key &&& s.mask
    let sig := key_signature16 e.key
    { s with table := s.table.set idx (storeBucket s.gen sig e (bucketAt s idx)) }

/-- `TranspositionTable::clear`: `++gen_` (a `uint8_t`, hence `% 256`);
on wrap through 0, reset the generation to 1 and wipe every slot. -/
def clear (s : TTState) : TTState :=
  let g := (s.gen + 1) % 256
  if g = 0 then
    { s with gen := 1, table := s.table.map (fun b => b.map (fun _ => default)) }
  else { s with gen := g }

/-- Modulus of `size_t` arithmetic. -/
def SIZE_MOD : Nat := 2 ^ 64

/-- The bit-smearing steps of `next_pow2` (64-bit version, shifts
1,2,4,8,16,32 on `x - 1`). -/
def smearStep (y k : Nat) : Nat := y ||| (y >>> k)

def smear (y : Nat) : Nat :=
  smearStep (smearStep (smearStep (smearStep (smearStep (smearStep y 1) 2) 4) 8) 16) 32

/-- `next_pow2` from `transposition.cpp` (the final `x + 1` is `size_t`
arithmetic, hence the `% 2^64`). -/
def next_pow2 (x : Nat) : Nat :=
  if x ≤ 1 then 1 else (smear (x - 1) + 1) % SIZE_MOD

/-- `CLUSTER_SIZE = 4` (entries per bucket). -/
def CLUSTER_SIZE : Nat := 4

/-- `sizeof(Bucket)` = 4 packed entries × 12 bytes
(`static_assert(sizeof(PackedEntry) == 12)`). -/
def BUCKET_BYTES : Nat := 48

/-- `TranspositionTable::entries_for_mb` (all arithmetic in `size_t`). -/
def entries_for_mb (mb : Nat) : Nat :=
  let mb := if mb < 1 then 1 else mb
  let bytes := mb * 1024 % SIZE_MOD * 1024 % SIZE_MOD
  let buckets := bytes / BUCKET_BYTES
  let buckets := if buckets < 1 then 1 else buckets
  let buckets := next_pow2 buckets
  buckets * CLUSTER_SIZE % SIZE_MOD

/-- `TranspositionTable::resize`: round the bucket count to a power of
two, allocate zero-initialized buckets, reset the generation to 1. -/
def resize (_s : TTState) (maxEntries : Nat) : TTState :=
  let me := if maxEntries < CLUSTER_SIZE then CLUSTER_SIZE else maxEntries
  let buckets := me / CLUSTER_SIZE
  let buckets := if buckets < 1 then 1 else buckets
  let buckets := next_pow2 buckets
  { table := List.replicate buckets emptyBucket
    mask := buckets - 1
    capacity_entries := buckets * CLUSTER_SIZE % SIZE_MOD
    gen := 1 }

/-- Well-formedness of a reachable table state: the generation tag is a
nonzero `uint8_t` and no stored slot carries a generation newer than the
current one (the table only writes `gen_` into slots, and a wrap wipes). -/
def WF (s : TTState) : Prop :=
  1 ≤ s.gen ∧ s.gen ≤ 255 ∧ ∀ b ∈ s.table, ∀ pe ∈ b, pe.gen ≤ s.gen

instance (s : TTState) : Decidable (WF s) :=
  inferInstanceAs (Decidable (_ ∧ _ ∧ _))

end FastEngine

namespace FastEngine

/-! Time manager (`compute_time_budget`, `src/src/engine.cpp`). -/

inductive Color
  | white
  | black
deriving DecidableEq

/-- The fields of `SearchLimits` consumed by `compute_time_budget`
(milliseconds; `-1` = not given). -/
structure SearchLimits where
  movetime_ms : Int := -1
  wtime_ms : Int := -1
  btime_ms : Int := -1
  winc_ms : Int := 0
  binc_ms : Int := 0
  movestogo : Int := -1
deriving DecidableEq

structure TimeBudget where
  enabled : Bool := false
  soft_ms : Int := 0
  hard_ms : Int := 0
  overhead_ms : Int := 0
deriving DecidableEq

/-- `compute_time_budget` from `engine.cpp` (C++ `int` / `long long`
arithmetic; all divisions here have nonnegative dividends and positive
divisors, so truncation and floor agree — we use `Int.tdiv` to match C++). -/
def compute_time_budget (limits : SearchLimits) (stm : Color)
    (move_overhead_ms : Int) : TimeBudget :=
  let overhead := max 0 move_overhead_ms
  if 0 ≤ limits.movetime_ms then
    let available := max 0 (limits.movetime_ms - overhead)
    { enabled := true
      hard_ms := available
      soft_ms := Int.tdiv (available * 95) 100
      overhead_ms := overhead }
  else
    let my_time_raw := if stm = Color.white then limits.wtime_ms else limits.btime_ms
    if my_time_raw < 0 then { enabled := false, overhead_ms := overhead }
    else
      let my_time := max 0 my_time_raw
      let my_inc_raw := if stm = Color.white then limits.winc_ms else limits.binc_ms
      let my_inc := max 0 my_inc_raw
      let available := max 0 (my_time - overhead)
      let mtg := if 0 < limits.movestogo then limits.movestogo else 64
      let soft := Int.tdiv available (mtg + 1) + Int.tdiv (my_inc * 6) 10
      let hard := soft * 2
      let hard := min hard available
      let hard := min hard (Int.tdiv my_time 4)
      let hard := min hard (soft * 4)
      let hard := if hard < 0 then 0 else hard
      let soft := if soft < 0 then 0 else soft
      let soft := if hard < soft then hard else soft
      { enabled := true, soft_ms := soft, hard_ms := hard, overhead_ms := overhead }

/-- Modelled from the spec (§4.8), for the refinement comparison of claim
C4: the budget formulas exactly as the spec states them, with the claim's
reading that "movetime is given" means `movetime ≥ 0` and that products
with 0.95 / 0.6 are the engine's integer forms `(x·95)/100`, `(x·6)/10`.
Note the absence of the `max 0` clamps on `movetime − overhead` and on the
increment. -/
def spec_time_budget (limits : SearchLimits) (stm : Color)
    (move_overhead_ms : Int) : TimeBudget :=
  let overhead := max 0 move_overhead_ms
  if 0 ≤ limits.movetime_ms then
    let hard := limits.movetime_ms - overhead
    { enabled := true
      hard_ms := hard
      soft_ms := Int.tdiv (hard * 95) 100
      overhead_ms := overhead }
  else
    let my_time := if stm = Color.white then limits.wtime_ms else limits.btime_ms
    if my_time < 0 then { enabled := false, overhead_ms := overhead }
    else
      let my_inc := if stm = Color.white then limits.winc_ms else limits.binc_ms
      let available := max 0 (my_time - overhead)
      let mtg := if 0 < limits.movestogo then limits.movestogo else 64
      let soft := Int.tdiv available (mtg + 1) + Int.tdiv (my_inc * 6) 10
      let hard := min (min (min (soft * 2) available) (Int.tdiv my_time 4)) (soft * 4)
      let soft := min soft hard
      { enabled := true, soft_ms := soft, hard_ms := hard, overhead_ms := overhead }

/-- The amended budget specification: the spec formulas with the two
clamps the code actually applies — `hard = max(0, movetime − overhead)` in
the movetime branch, and a nonnegative increment `max 0 my_inc` in the
clock branch (plus the final `soft ≥ 0` clamp, which is then redundant). -/
def amended_time_budget (limits : SearchLimits) (stm : Color)
    (move_overhead_ms : Int) : TimeBudget :=
  let overhead := max 0 move_overhead_ms
  if 0 ≤ limits.movetime_ms then
    let hard := max 0 (limits.movetime_ms - overhead)
    { enabled := true
      hard_ms := hard
      soft_ms := Int.tdiv (hard * 95) 100
      overhead_ms := overhead }
  else
    let my_time := if stm = Color.white then limits.wtime_ms else limits.btime_ms
    if my_time < 0 then { enabled := false, overhead_ms := overhead }
    else
      let my_inc := max 0 (if stm = Color.white then limits.winc_ms else limits.binc_ms)
      let available := max 0 (my_time - overhead)
      let mtg := if 0 < limits.movestogo then limits.movestogo else 64
      let soft := Int.tdiv available (mtg + 1) + Int.tdiv (my_inc * 6) 10
      let hard := min (min (min (soft * 2) available) (Int.tdiv my_time 4)) (soft * 4)
      let soft := min soft hard
      { enabled := true, soft_ms := soft, hard_ms := hard, overhead_ms := overhead }

end FastEngine

namespace FastEngine

/-!
Aspiration-window loop of the iterative deepener
(`Engine::search_position_impl`, `src/src/engine.cpp`).  One iteration of
the deepener is modelled parametrically in the root search, taken as a
deterministic oracle `f : α → β → score` (`find_best_move` with everything
but the window fixed; stats and the external-stop path are not part of the
claim and are not modelled — `ok` is identically true).
-/

/-- Initial aspiration state: `window = 50`; the window is centred on the
previous score only when one exists and is not a mate score
(`have_prev && |prev_score| < MATE_BOUND`), else it is full. -/
def aspirationInit (havePrev : Bool) (prev : Int) : Int × Int × Int :=
  if havePrev ∧ |prev| < MATE_BOUND then (50, prev - 50, prev + 50)
  else (50, -SCORE_INF, SCORE_INF)

/-- The retry loop `for (int tries = 0; tries < 5; ++tries)`: search the
window; on fail-low (`score ≤ alpha`) or fail-high (`score ≥ beta`) double
the window, recentre (or keep the full window when there is no previous
score) and retry.  Returns `(attempts made, landed strictly inside the
window, last score)`. -/
def aspirationLoop (f : Int → Int → Int) (havePrev : Bool) (prev : Int) :
    Int → Int → Int → Nat → Nat × Bool × Int
  | _, _, _, 0 => (0, false, 0)
  | w, a, b, fuel + 1 =>
    let s := f a b
    if s ≤ a ∨ b ≤ s then
      let w := w * 2
      let a := if havePrev then prev - w else -SCORE_INF
      let b := if havePrev then prev + w else SCORE_INF
      let r := aspirationLoop f havePrev prev w a b fuel
      (r.1 + 1, r.2.1, r.2.2)
    else (1, true, s)

/-- One deepener iteration: run the retry loop with 5 attempts; if it did
not land inside the window, force exactly one full-window re-search
(`if (ok && !in_window)` with `ok = true` here).  Returns
`(aspiration attempts, full-window re-searches, final score)`. -/
def aspirationIterate (f : Int → Int → Int) (havePrev : Bool) (prev : Int) :
    Nat × Nat × Int :=
  let i := aspirationInit havePrev prev
  let r := aspirationLoop f havePrev prev i.1 i.2.1 i.2.2 5
  if r.2.1 then (r.1, 0, r.2.2) else (r.1, 1, f (-SCORE_INF) SCORE_INF)

end FastEngine

namespace FastEngine

/-!
UCI score formatting (`src/apps/fast_engine_uci.cpp`), and the best-move
fallback logic of the UCI driver.
-/

/-- `score_to_mate_moves`: `some k` iff the score is a mate score
(`|score| > MATE_BOUND`), with `k = (MATE_SCORE − score + 1) / 2` on the
winning side and the negated mirror on the losing side (C++ `int`
division, i.e. truncation: `Int.tdiv`). -/
def score_to_mate_moves (score : Int) : Option Int :=
  if MATE_BOUND < score then some (Int.tdiv (MATE_SCORE - score + 1) 2)
  else if score < -MATE_BOUND then some (-Int.tdiv (MATE_SCORE + score + 1) 2)
  else none

/-- `append_uci_score`: the text appended to an `info` line for a score. -/
def append_uci_score (score : Int) : String :=
  match score_to_mate_moves score with
  | some k => " score mate " ++ toString k
  | none => " score cp " ++ toString score

/-- Modelled from the spec (§6.3), for claim C6: the emitted mate count is
`k = ceil((MATE − |score|)/2) × sign(score)`.  The ceiling of an integer
half is `⌊(d+1)/2⌋`, i.e. `Int.fdiv (d+1) 2`. -/
def spec_mate_moves (score : Int) : Int :=
  Int.fdiv (MATE_SCORE - |score| + 1) 2 * Int.sign score

/-- `pick_fallback_legal_move`: the first legal move, or `NO_MOVE` when
the position has none.  Legal moves are their raw 16-bit encodings; the
move list is the one `chess::movegen::legalmoves` produces. -/
def pick_fallback_legal_move (legal : List Nat) : Nat :=
  match legal with
  | [] => NO_MOVE
  | m :: _ => m

/-- `ensure_legal_or_fallback`: keep `candidate` when it is legal, fall
back to the first legal move, and report `NO_MOVE` when there is none. -/
def ensure_legal_or_fallback (legal : List Nat) (candidate : Nat) : Nat :=
  match legal with
  | [] => NO_MOVE
  | m :: _ => if candidate ∈ legal then candidate else m

/-- The `bestmove` emission of the search worker's completion handler
(`start_search_async`): for a finished, non-suppressed search with result
`(ok ∧ has_best_move, best_move)`, the emitted line.  `moveToUci` is the
rules library's move printer, taken as a parameter. -/
def bestmoveLine (moveToUci : Nat → String) (legal : List Nat)
    (okHasBest : Bool) (candidate : Nat) : String :=
  let best :=
    if okHasBest then ensure_legal_or_fallback legal candidate
    else pick_fallback_legal_move legal
  if best = NO_MOVE then "bestmove 0000" else "bestmove " ++ moveToUci best

end FastEngine

namespace FastEngine

/-! Concrete example data used by witnesses and counterexamples. -/

/-- A default-constructed table (no storage). -/
def exEmpty : TTState := { table := [], mask := 0, capacity_entries := 0, gen := 1 }

/-- A freshly resized one-bucket table. -/
def exS : TTState := resize exEmpty 4

def exE : TTEntry :=
  { key := 5, depth := 10, flag := 1, value := 42, bestMove := 333, hasMove := true }

def exEdeep : TTEntry :=
  { key := 5, depth := 200, flag := 1, value := 42, bestMove := 333, hasMove := true }

def exEneg : TTEntry :=
  { key := 5, depth := -3, flag := 2, value := -7, bestMove := 0, hasMove := false }

end FastEngine

namespace FastEngine

/-! Helper lemmas about the transposition-table embedding. -/

theorem probeBucket_eq_none {g sig key : Nat} {l : List PackedEntry}
    (h : ∀ pe ∈ l, ¬ slotMatch g sig pe) : probeBucket g sig key l = none := by
  induction l with
  | nil => rfl
  | cons pe rest ih =>
    simp only [probeBucket]
    rw [if_neg (h pe (List.mem_cons_self _ _))]
    exact ih fun q hq => h q (List.mem_cons_of_mem _ hq)

theorem probeBucket_eq_some {g sig key : Nat} {l : List PackedEntry} {out : TTEntry}
    (h : probeBucket g sig key l = some out) :
    ∃ pe ∈ l, slotMatch g sig pe ∧ out = entryOut key pe := by
  induction l with
  | nil => simp [probeBucket] at h
  | cons pe rest ih =>
    by_cases hm : slotMatch g sig pe
    · refine ⟨pe, List.mem_cons_self _ _, hm, ?_⟩
      simp only [probeBucket, if_pos hm, Option.some.injEq] at h
      exact h.symm
    · simp only [probeBucket, if_neg hm] at h
      obtain ⟨q, hq, hmq, hout⟩ := ih h
      exact ⟨q, List.mem_cons_of_mem _ hq, hmq, hout⟩

theorem probeBucket_set {g sig key : Nat} {l : List PackedEntry} {j : Nat} {w : PackedEntry}
    (hj : j < l.length) (hall : ∀ pe ∈ l, ¬ slotMatch g sig pe) (hw : slotMatch g sig w) :
    probeBucket g sig key (l.set j w) = some (entryOut key w) := by
  induction l generalizing j with
  | nil => simp at hj
  | cons pe rest ih =>
    cases j with
    | zero => simp [List.set, probeBucket, if_pos hw]
    | succ j =>
      simp only [List.set, probeBucket]
      rw [if_neg (hall pe (List.mem_cons_self _ _))]
      exact ih (by simpa using hj) fun q hq => hall q (List.mem_cons_of_mem _ hq)

theorem tryUpdateSame_eq_none {g sig : Nat} {e : TTEntry} {l : List PackedEntry}
    (h : ∀ pe ∈ l, ¬ slotMatch g sig pe) : tryUpdateSame g sig e l = none := by
  induction l with
  | nil => rfl
  | cons pe rest ih =>
    simp only [tryUpdateSame]
    rw [if_neg (h pe (List.mem_cons_self _ _)),
      ih fun q hq => h q (List.mem_cons_of_mem _ hq)]
    rfl

theorem tryWriteEmpty_shape {g sig : Nat} {e : TTEntry} : ∀ {l l' : List PackedEntry},
    tryWriteEmpty g sig e l = some l' →
    ∃ j, j < l.length ∧ l' = l.set j (writeEntry g sig e) := by
  intro l
  induction l with
  | nil => intro l' h; simp [tryWriteEmpty] at h
  | cons pe rest ih =>
    intro l' h
    simp only [tryWriteEmpty] at h
    by_cases hc : pe.gen ≠ g ∨ pe.depth < 0
    · rw [if_pos hc] at h
      cases h
      exact ⟨0, Nat.succ_pos _, rfl⟩
    · rw [if_neg hc] at h
      cases hr : tryWriteEmpty g sig e rest with
      | none => rw [hr] at h; simp at h
      | some nb =>
        rw [hr] at h
        simp only [Option.map_some', Option.some.injEq] at h
        obtain ⟨j, hj, rfl⟩ := ih hr
        exact ⟨j + 1, by simpa using Nat.succ_lt_succ hj, by simp [← h, List.set]⟩

theorem victimAux_cases {g : Nat} : ∀ (l : List PackedEntry) (i best : Nat) (bq : Int),
    victimAux g l i best bq = best ∨
      (i ≤ victimAux g l i best bq ∧ victimAux g l i best bq < i + l.length) := by
  intro l
  induction l with
  | nil => intro i best bq; exact Or.inl rfl
  | cons pe rest ih =>
    intro i best bq
    simp only [victimAux, List.length_cons]
    by_cases hq : quality g pe < bq
    · rw [if_pos hq]
      rcases ih (i + 1) i (quality g pe) with h | ⟨h1, h2⟩
      · rw [h]; right; omega
      · right; omega
    · rw [if_neg hq]
      rcases ih (i + 1) best bq with h | ⟨h1, h2⟩
      · exact Or.inl h
      · right; omega

theorem victimIdx_lt {g : Nat} {l : List PackedEntry} (h : l ≠ []) :
    victimIdx g l < l.length := by
  have hlen : 0 < l.length := List.length_pos.mpr h
  rcases victimAux_cases (g := g) l 0 0 (quality g (l.headD default)) with h0 | ⟨_, h2⟩
  · unfold victimIdx; omega
  · unfold victimIdx; omega

theorem storeBucket_fresh {g sig : Nat} {e : TTEntry} {b : List PackedEntry}
    (hfresh : ∀ pe ∈ b, ¬ slotMatch g sig pe) (hne : b ≠ []) :
    ∃ j, j < b.length ∧ storeBucket g sig e b = b.set j (writeEntry g sig e) := by
  unfold storeBucket
  rw [tryUpdateSame_eq_none hfresh]
  cases hr : tryWriteEmpty g sig e b with
  | some nb =>
    obtain ⟨j, hj, rfl⟩ := tryWriteEmpty_shape hr
    exact ⟨j, hj, rfl⟩
  | none => exact ⟨victimIdx g b, victimIdx_lt hne, rfl⟩

theorem clampDepth_nonneg (d : Int) : 0 ≤ clampDepth d := by
  unfold clampDepth; split_ifs <;> omega

theorem writeEntry_slotMatch (g sig : Nat) (e : TTEntry) :
    slotMatch g sig (writeEntry g sig e) :=
  ⟨rfl, clampDepth_nonneg e.depth, rfl⟩

theorem entryOut_writeEntry (key g sig : Nat) (e : TTEntry) :
    entryOut key (writeEntry g sig e) =
      { key := key, depth := clampDepth e.depth, flag := e.flag, value := e.value,
        hasMove := e.hasMove, bestMove := if e.hasMove then e.bestMove else NO_MOVE } := by
  obtain ⟨k, d, f, v, bm, hm⟩ := e
  cases hm <;> simp [entryOut, writeEntry]

theorem store_gen (s : TTState) (e : TTEntry) : (store s e).gen = s.gen := by
  unfold store; split <;> rfl

theorem store_mask (s : TTState) (e : TTEntry) : (store s e).mask = s.mask := by
  unfold store; split <;> rfl

theorem store_table {s : TTState} (e : TTEntry) (hne : s.table ≠ []) :
    (store s e).table = s.table.set (e.key &&& s.mask)
      (storeBucket s.gen (key_signature16 e.key) e (bucketAt s (e.key &&& s.mask))) := by
  unfold store; rw [if_neg hne]

theorem probe_of_bucket {s : TTState} {key : Nat} (hne : s.table ≠ []) :
    probe s key = probeBucket s.gen (key_signature16 key) key (bucketAt s (key &&& s.mask)) := by
  unfold probe; rw [if_neg hne]

/-- Core store/probe round trip: on a state with allocated storage whose
target bucket holds no valid current-generation slot with the stored key's
signature, `store` writes the entry into the bucket and an immediate
`probe` of the same key finds exactly it (depth clamped to `[0,127]`). -/
theorem store_fresh_probe {s : TTState} {e : TTEntry}
    (hne : s.table ≠ [])
    (hmask : s.mask < s.table.length)
    (hbucket : bucketAt s (e.key &&& s.mask) ≠ [])
    (hfresh : ∀ pe ∈ bucketAt s (e.key &&& s.mask),
      ¬ slotMatch s.gen (key_signature16 e.key) pe) :
    probe (store s e) e.key =
      some { key := e.key, depth := clampDepth e.depth, flag := e.flag, value := e.value,
             hasMove := e.hasMove, bestMove := if e.hasMove then e.bestMove else NO_MOVE } := by
  have hidx : e.key &&& s.mask < s.table.length :=
    lt_of_le_of_lt Nat.and_le_right hmask
  obtain ⟨j, hj, hsb⟩ :=
    @storeBucket_fresh s.gen (key_signature16 e.key) e _ hfresh hbucket
  have htab := store_table e hne
  have hne2 : (store s e).table ≠ [] := by
    rw [htab]
    intro hcon
    have := List.length_set s.table (e.key &&& s.mask)
      (storeBucket s.gen (key_signature16 e.key) e (bucketAt s (e.key &&& s.mask)))
    rw [hcon] at this
    exact hne (List.eq_nil_of_length_eq_zero this.symm)
  rw [probe_of_bucket hne2, store_gen, store_mask]
  have hb : bucketAt (store s e) (e.key &&& s.mask) =
      storeBucket s.gen (key_signature16 e.key) e (bucketAt s (e.key &&& s.mask)) := by
    unfold bucketAt
    rw [htab, List.getD_eq_getElem?_getD, List.getElem?_set_self hidx, Option.getD_some]
    rfl
  rw [hb, hsb, probeBucket_set hj hfresh (writeEntry_slotMatch ..), entryOut_writeEntry]

end FastEngine

namespace FastEngine

/-! Generation bounds: `store` never writes a generation newer than the
current one, and `clear` advances past every stored generation. -/

theorem bucketAt_cases (s : TTState) (idx : Nat) :
    bucketAt s idx ∈ s.table ∨ bucketAt s idx = ([] : Bucket) := by
  unfold bucketAt
  by_cases h : idx < s.table.length
  · left
    rw [List.getD_eq_getElem _ _ h]
    exact List.getElem_mem h
  · right
    exact List.getD_eq_default _ _ (le_of_not_lt h)

theorem tryUpdateSame_genBound {g sig : Nat} {e : TTEntry} :
    ∀ {l l' : List PackedEntry}, tryUpdateSame g sig e l = some l' →
    (∀ pe ∈ l, pe.gen ≤ g) → ∀ pe' ∈ l', pe'.gen ≤ g := by
  intro l
  induction l with
  | nil => intro l' h; simp [tryUpdateSame] at h
  | cons pe rest ih =>
    intro l' h hb pe' hpe'
    simp only [tryUpdateSame] at h
    by_cases hm : slotMatch g sig pe
    · rw [if_pos hm] at h
      split at h
      · cases h
        rcases List.mem_cons.mp hpe' with hh | hh
        · subst hh; exact le_refl g
        · exact hb pe' (List.mem_cons_of_mem _ hh)
      · split at h
        · cases h
          rcases List.mem_cons.mp hpe' with hh | hh
          · subst hh; exact hb pe (List.mem_cons_self _ _)
          · exact hb pe' (List.mem_cons_of_mem _ hh)
        · cases h
          exact hb pe' hpe'
    · rw [if_neg hm] at h
      cases hr : tryUpdateSame g sig e rest with
      | none => rw [hr] at h; simp at h
      | some nb =>
        rw [hr] at h
        simp only [Option.map_some', Option.some.injEq] at h
        subst h
        rcases List.mem_cons.mp hpe' with hh | hh
        · rw [hh]; exact hb pe (List.mem_cons_self _ _)
        · exact ih hr (fun q hq => hb q (List.mem_cons_of_mem _ hq)) pe' hh

theorem storeBucket_genBound {g sig : Nat} {e : TTEntry} {b : List PackedEntry}
    (hb : ∀ pe ∈ b, pe.gen ≤ g) :
    ∀ pe' ∈ storeBucket g sig e b, pe'.gen ≤ g := by
  intro pe' hpe'
  unfold storeBucket at hpe'
  cases h1 : tryUpdateSame g sig e b with
  | some nb =>
    rw [h1] at hpe'
    exact tryUpdateSame_genBound h1 hb pe' hpe'
  | none =>
    rw [h1] at hpe'
    cases h2 : tryWriteEmpty g sig e b with
    | some nb =>
      rw [h2] at hpe'
      obtain ⟨j, hj, rfl⟩ := tryWriteEmpty_shape h2
      rcases List.mem_or_eq_of_mem_set hpe' with hh | hh
      · exact hb pe' hh
      · subst hh; exact le_refl g
    | none =>
      rw [h2] at hpe'
      rcases List.mem_or_eq_of_mem_set hpe' with hh | hh
      · exact hb pe' hh
      · subst hh; exact le_refl g

theorem store_genBound {s : TTState} (e : TTEntry)
    (h : ∀ b ∈ s.table, ∀ pe ∈ b, pe.gen ≤ s.gen) :
    ∀ b ∈ (store s e).table, ∀ pe ∈ b, pe.gen ≤ s.gen := by
  intro b hb pe hpe
  by_cases hne : s.table = []
  · unfold store at hb
    rw [if_pos hne] at hb
    exact h b hb pe hpe
  · rw [store_table e hne] at hb
    rcases List.mem_or_eq_of_mem_set hb with hh | hh
    · exact h b hh pe hpe
    · subst hh
      refine storeBucket_genBound ?_ pe hpe
      rcases bucketAt_cases s (e.key &&& s.mask) with hc | hc
      · exact h _ hc
      · rw [hc]; intro q hq; cases hq

/-- After `clear`, no slot passes the probe filter: in the non-wrap case
every stored generation is at most the old one, strictly below the new
one; in the wrap case every slot was wiped to the empty entry. -/
theorem probe_clear_none {s : TTState}
    (hgen : s.gen ≤ 255)
    (hbound : ∀ b ∈ s.table, ∀ pe ∈ b, pe.gen ≤ s.gen) (k : Nat) :
    probe (clear s) k = none := by
  unfold clear
  by_cases hw : (s.gen + 1) % 256 = 0
  · rw [if_pos hw]
    unfold probe
    split
    · rfl
    · apply probeBucket_eq_none
      intro pe hpe hmatch
      have hcase := bucketAt_cases
        { s with gen := 1, table := s.table.map (fun b => b.map (fun _ => default)) }
        (k &&& s.mask)
      rcases hcase with hc | hc
      · simp only [List.mem_map] at hc
        obtain ⟨b0, _, hb0⟩ := hc
        rw [← hb0] at hpe
        simp only [List.mem_map] at hpe
        obtain ⟨q, _, hq⟩ := hpe
        rw [← hq] at hmatch
        exact absurd hmatch.2.1 (by decide)
      · rw [hc] at hpe
        cases hpe
  · rw [if_neg hw]
    unfold probe
    split
    · rfl
    · apply probeBucket_eq_none
      intro pe hpe hmatch
      have hcase := bucketAt_cases { s with gen := (s.gen + 1) % 256 } (k &&& s.mask)
      rcases hcase with hc | hc
      · have hle := hbound _ hc pe hpe
        have hg : pe.gen = (s.gen + 1) % 256 := hmatch.1
        omega
      · rw [hc] at hpe
        cases hpe

end FastEngine

namespace FastEngine

/-- C1 (amended): on a table with allocated storage whose target bucket
holds no valid current-generation slot with the key's signature, `store(e)`
immediately followed by `probe(e.key)` — no intervening `clear` or
`resize` — returns an entry with the same bound flag, the same value,
`e`'s best move when it had one, and `e`'s depth clamped to `[0,127]`. -/
theorem C1_store_then_probe {s : TTState} {e : TTEntry}
    (hne : s.table ≠ []) (hmask : s.mask < s.table.length)
    (hbucket : bucketAt s (e.key &&& s.mask) ≠ [])
    (hfresh : ∀ pe ∈ bucketAt s (e.key &&& s.mask),
      ¬ slotMatch s.gen (key_signature16 e.key) pe) :
    probe (store s e) e.key =
      some { key := e.key, depth := clampDepth e.depth, flag := e.flag,
             value := e.value, hasMove := e.hasMove,
             bestMove := if e.hasMove then e.bestMove else NO_MOVE } :=
  store_fresh_probe hne hmask hbucket hfresh

/-- Witness for C1 at a concrete fresh table and entry. -/
theorem C1_store_then_probe_witness :
    exS.table ≠ [] ∧
      probe (store exS exE) exE.key =
        some { key := exE.key, depth := clampDepth exE.depth, flag := exE.flag,
               value := exE.value, hasMove := exE.hasMove,
               bestMove := if exE.hasMove then exE.bestMove else NO_MOVE } :=
  ⟨by decide, C1_store_then_probe (by decide) (by decide) (by decide) (by decide)⟩

/-- Counterexample to C1 as stated: storing an entry of depth 200 and
probing the same key returns depth 127, not the stored depth. -/
theorem C1_countereg :
    probe (store exS exEdeep) exEdeep.key =
      some { key := 5, depth := 127, flag := 1, value := 42, bestMove := 333,
             hasMove := true } ∧
      exEdeep.depth = 200 ∧ (127 : Int) ≠ 200 := by decide

/-- C2: a probe hit always comes from a slot whose generation equals the
table's current generation, whose depth is nonnegative and whose stored
signature is the probed key's; in particular an entry written under an
earlier generation (still present in memory) is never returned. -/
theorem C2_probe_hit_generation {s : TTState} {k : Nat} {out : TTEntry}
    (h : probe s k = some out) :
    ∃ pe ∈ bucketAt s (k &&& s.mask),
      pe.gen = s.gen ∧ 0 ≤ pe.depth ∧ pe.key16 = key_signature16 k ∧
        out = entryOut k pe ∧ 0 ≤ out.depth := by
  unfold probe at h
  split at h
  · cases h
  · obtain ⟨pe, hpe, hm, hout⟩ := probeBucket_eq_some h
    exact ⟨pe, hpe, hm.1, hm.2.1, hm.2.2, hout, by rw [hout]; exact hm.2.1⟩

/-- Witness for C2 at a concrete hit. -/
theorem C2_probe_hit_generation_witness :
    ∃ pe ∈ bucketAt (store exS exE) (5 &&& (store exS exE).mask),
      pe.gen = (store exS exE).gen ∧ 0 ≤ pe.depth ∧
        pe.key16 = key_signature16 5 ∧
        ({ key := 5, depth := 10, flag := 1, value := 42, bestMove := 333,
           hasMove := true } : TTEntry) = entryOut 5 pe ∧
        0 ≤ ({ key := 5, depth := 10, flag := 1, value := 42, bestMove := 333,
               hasMove := true } : TTEntry).depth :=
  C2_probe_hit_generation (by decide)

/-- C3: `clear` bumps the generation without touching any entry, except
when the 8-bit counter wraps through 0, in which case every slot is
physically wiped and the generation resets to 1; consequently
store–clear–probe misses for every key. -/
theorem C3_clear_invalidates {s : TTState} (hWF : WF s) :
    (s.gen ≠ 255 → clear s = { s with gen := s.gen + 1 }) ∧
    (s.gen = 255 →
      (clear s).gen = 1 ∧ ∀ b ∈ (clear s).table, ∀ pe ∈ b, pe = default) ∧
    (∀ e : TTEntry, ∀ k : Nat, probe (clear (store s e)) k = none) := by
  obtain ⟨hg1, hg255, hbound⟩ := hWF
  refine ⟨?_, ?_, ?_⟩
  · intro hne
    unfold clear
    have hmod : (s.gen + 1) % 256 = s.gen + 1 := by omega
    rw [hmod, if_neg (by omega)]
  · intro h255
    unfold clear
    rw [h255]
    rw [if_pos (by norm_num)]
    refine ⟨rfl, ?_⟩
    intro b hb pe hpe
    simp only [List.mem_map] at hb
    obtain ⟨b0, _, hb0⟩ := hb
    rw [← hb0] at hpe
    simp only [List.mem_map] at hpe
    obtain ⟨q, _, hq⟩ := hpe
    exact hq.symm
  · intro e k
    have hg : (store s e).gen = s.gen := store_gen s e
    apply probe_clear_none (by rw [hg]; exact hg255)
    intro b hb pe hpe
    rw [hg]
    exact store_genBound e hbound b hb pe hpe

/-- Witness for C3: the non-wrap clear is a pure generation bump, and a
probe after store–clear misses. -/
theorem C3_clear_invalidates_witness :
    clear exS = { exS with gen := exS.gen + 1 } ∧
      probe (clear (store exS exE)) 77 = none :=
  ⟨(C3_clear_invalidates (by decide)).1 (by decide),
    (C3_clear_invalidates (by decide)).2.2 exE 77⟩

/-- C9: `store` saturates the written depth into `[0,127]`: an entry
stored with depth above 127 probes back with depth exactly 127, and one
stored with negative depth probes back with depth 0. -/
theorem C9_depth_clamped {s : TTState} {e : TTEntry}
    (hne : s.table ≠ []) (hmask : s.mask < s.table.length)
    (hbucket : bucketAt s (e.key &&& s.mask) ≠ [])
    (hfresh : ∀ pe ∈ bucketAt s (e.key &&& s.mask),
      ¬ slotMatch s.gen (key_signature16 e.key) pe) :
    (127 < e.depth →
      probe (store s e) e.key =
        some { key := e.key, depth := 127, flag := e.flag, value := e.value,
               hasMove := e.hasMove,
               bestMove := if e.hasMove then e.bestMove else NO_MOVE }) ∧
    (e.depth < 0 →
      probe (store s e) e.key =
        some { key := e.key, depth := 0, flag := e.flag, value := e.value,
               hasMove := e.hasMove,
               bestMove := if e.hasMove then e.bestMove else NO_MOVE }) := by
  constructor
  · intro hd
    rw [store_fresh_probe hne hmask hbucket hfresh]
    have hc : clampDepth e.depth = 127 := by
      unfold clampDepth
      rw [if_neg (by omega), if_pos hd]
    rw [hc]
  · intro hd
    rw [store_fresh_probe hne hmask hbucket hfresh]
    have hc : clampDepth e.depth = 0 := by
      unfold clampDepth
      rw [if_pos hd]
    rw [hc]

/-- Witness for C9 on both saturation sides. -/
theorem C9_depth_clamped_witness :
    probe (store exS exEdeep) exEdeep.key =
      some { key := 5, depth := 127, flag := 1, value := 42, bestMove := 333,
             hasMove := true } ∧
    probe (store exS exEneg) exEneg.key =
      some { key := 5, depth := 0, flag := 2, value := -7, bestMove := 0,
             hasMove := false } :=
  ⟨(C9_depth_clamped (by decide) (by decide) (by decide) (by decide)).1 (by decide),
    (C9_depth_clamped (by decide) (by decide) (by decide) (by decide)).2 (by decide)⟩

/-- C10: on a table with no allocated storage, `probe` returns `none` for
every key and `store` leaves the table unchanged; neither indexes into a
bucket. -/
theorem C10_unallocated {s : TTState} (h : s.table = []) (k : Nat) (e : TTEntry) :
    probe s k = none ∧ store s e = s := by
  constructor
  · unfold probe; rw [if_pos h]
  · unfold store; rw [if_pos h]

/-- Witness for C10 on the default-constructed table. -/
theorem C10_unallocated_witness :
    probe exEmpty 12345 = none ∧ store exEmpty exE = exEmpty :=
  C10_unallocated (by decide) 12345 exE

end FastEngine

namespace FastEngine

/-- C4 (amended): `compute_time_budget` agrees, on every input, with the
spec formulas amended by the two clamps the code applies: in the movetime
branch `hard = max(0, movetime − overhead)`, and in the clock branch a
nonnegative increment `max 0 my_inc`. -/
theorem C4_time_budget (limits : SearchLimits) (stm : Color) (ov : Int) :
    compute_time_budget limits stm ov = amended_time_budget limits stm ov := by
  simp only [compute_time_budget, amended_time_budget]
  by_cases hmt : 0 ≤ limits.movetime_ms
  · rw [if_pos hmt, if_pos hmt]
  · rw [if_neg hmt, if_neg hmt]
    set t := (if stm = Color.white then limits.wtime_ms else limits.btime_ms) with ht
    by_cases hct : t < 0
    · rw [if_pos hct, if_pos hct]
    · rw [if_neg hct, if_neg hct]
      have ht0 : (0 : Int) ≤ t := not_lt.mp hct
      rw [max_eq_right ht0]
      set inc := max 0 (if stm = Color.white then limits.winc_ms else limits.binc_ms)
        with hinc
      have hinc0 : (0 : Int) ≤ inc := le_max_left _ _
      set A := max 0 (t - max 0 ov) with hA
      have hA0 : (0 : Int) ≤ A := le_max_left _ _
      set mtg := (if 0 < limits.movestogo then limits.movestogo else 64) with hmtg
      have hmtg0 : (0 : Int) < mtg + 1 := by
        rw [hmtg]; split <;> omega
      set s := Int.tdiv A (mtg + 1) + Int.tdiv (inc * 6) 10 with hsdef
      have hs0 : (0 : Int) ≤ s := by
        rw [hsdef]
        exact add_nonneg (Int.tdiv_nonneg hA0 (by omega))
          (Int.tdiv_nonneg (mul_nonneg hinc0 (by norm_num)) (by norm_num))
      set q := Int.tdiv t 4 with hq
      have hq0 : (0 : Int) ≤ q := by
        rw [hq]; exact Int.tdiv_nonneg ht0 (by norm_num)
      have hh30 : (0 : Int) ≤ min (min (min (s * 2) A) q) (s * 4) := by
        have h1 : (0 : Int) ≤ s * 2 := by omega
        have h2 : (0 : Int) ≤ s * 4 := by omega
        omega
      simp only [TimeBudget.mk.injEq, true_and, and_true]
      constructor
      · split_ifs <;> omega
      · split_ifs <;> omega

end FastEngine

namespace FastEngine

/-- Counterexample to C4 as stated: with `movetime = 5` and overhead 20
the code clamps the hard budget at 0, while the spec formula
`hard = movetime − overhead` yields −15. -/
theorem C4_countereg :
    compute_time_budget { movetime_ms := 5 } Color.white 20 ≠
        spec_time_budget { movetime_ms := 5 } Color.white 20 ∧
      (compute_time_budget { movetime_ms := 5 } Color.white 20).hard_ms = 0 ∧
      (spec_time_budget { movetime_ms := 5 } Color.white 20).hard_ms = -15 := by
  decide

/-- Attempts of the aspiration retry loop never exceed its fuel. -/
theorem aspirationLoop_att_le (f : Int → Int → Int) (hp : Bool) (prev : Int) :
    ∀ (n : Nat) (w a b : Int), (aspirationLoop f hp prev w a b n).1 ≤ n := by
  intro n
  induction n with
  | zero => intro w a b; simp [aspirationLoop]
  | succ n ih =>
    intro w a b
    simp only [aspirationLoop]
    split
    · have := ih (w * 2) (if hp then prev - w * 2 else -SCORE_INF)
        (if hp then prev + w * 2 else SCORE_INF)
      simpa using this
    · simp

/-- C5: on a fail-low or fail-high the window is doubled and the root
search retried (conjunct 1); a score strictly inside the window ends the
loop at once (conjunct 2); the attempts of one iteration are bounded by 5
(conjunct 3); the forced full-window re-search happens exactly once when
the loop did not land inside the window, and never otherwise (conjuncts 4
and 5). -/
theorem C5_aspiration (f : Int → Int → Int) (havePrev : Bool) (prev : Int) :
    (∀ (w a b : Int) (n : Nat), (f a b ≤ a ∨ b ≤ f a b) →
      aspirationLoop f havePrev prev w a b (n + 1) =
        ((aspirationLoop f havePrev prev (w * 2)
            (if havePrev then prev - w * 2 else -SCORE_INF)
            (if havePrev then prev + w * 2 else SCORE_INF) n).1 + 1,
          (aspirationLoop f havePrev prev (w * 2)
            (if havePrev then prev - w * 2 else -SCORE_INF)
            (if havePrev then prev + w * 2 else SCORE_INF) n).2.1,
          (aspirationLoop f havePrev prev (w * 2)
            (if havePrev then prev - w * 2 else -SCORE_INF)
            (if havePrev then prev + w * 2 else SCORE_INF) n).2.2)) ∧
    (∀ (w a b : Int) (n : Nat), a < f a b → f a b < b →
      aspirationLoop f havePrev prev w a b (n + 1) = (1, true, f a b)) ∧
    (aspirationIterate f havePrev prev).1 ≤ 5 ∧
    (aspirationIterate f havePrev prev).2.1 =
      (if (aspirationLoop f havePrev prev (aspirationInit havePrev prev).1
            (aspirationInit havePrev prev).2.1
            (aspirationInit havePrev prev).2.2 5).2.1
        then 0 else 1) ∧
    (aspirationIterate f havePrev prev).2.1 ≤ 1 := by
  refine ⟨?_, ?_, ?_, ?_, ?_⟩
  · intro w a b n hfail
    simp only [aspirationLoop]
    rw [if_pos hfail]
  · intro w a b n h1 h2
    simp only [aspirationLoop]
    rw [if_neg (by omega)]
  · simp only [aspirationIterate]
    split
    · simpa using aspirationLoop_att_le f havePrev prev 5 _ _ _
    · simpa using aspirationLoop_att_le f havePrev prev 5 _ _ _
  · simp only [aspirationIterate]
    split <;> rename_i h <;> simp [h]
  · simp only [aspirationIterate]
    split <;> simp

/-- Witness for C5: with an oracle that always scores 0, a window around
100 fails low and retries with a doubled window, the window around 0 lands
immediately, and the iteration respects the attempt/re-search bounds. -/
theorem C5_aspiration_witness :
    (aspirationLoop (fun _ _ => (0 : Int)) true 0 50 100 200 5 =
      ((aspirationLoop (fun _ _ => (0 : Int)) true 0 (50 * 2)
          (if true then 0 - 50 * 2 else -SCORE_INF)
          (if true then 0 + 50 * 2 else SCORE_INF) 4).1 + 1,
        (aspirationLoop (fun _ _ => (0 : Int)) true 0 (50 * 2)
          (if true then 0 - 50 * 2 else -SCORE_INF)
          (if true then 0 + 50 * 2 else SCORE_INF) 4).2.1,
        (aspirationLoop (fun _ _ => (0 : Int)) true 0 (50 * 2)
          (if true then 0 - 50 * 2 else -SCORE_INF)
          (if true then 0 + 50 * 2 else SCORE_INF) 4).2.2)) ∧
    aspirationLoop (fun _ _ => (0 : Int)) true 0 50 (-50) 50 3 = (1, true, 0) ∧
    (aspirationIterate (fun _ _ => (0 : Int)) true 0).1 ≤ 5 ∧
    (aspirationIterate (fun _ _ => (0 : Int)) true 0).2.1 ≤ 1 :=
  ⟨(C5_aspiration (fun _ _ => (0 : Int)) true 0).1 50 100 200 4 (by decide),
    (C5_aspiration (fun _ _ => (0 : Int)) true 0).2.1 50 (-50) 50 2 (by decide) (by decide),
    (C5_aspiration (fun _ _ => (0 : Int)) true 0).2.2.1,
    (C5_aspiration (fun _ _ => (0 : Int)) true 0).2.2.2.2⟩

end FastEngine

namespace FastEngine

/-- C6 (amended): for internal scores, i.e. `|s| ≤ MATE_SCORE`, the UCI
formatter prints `score mate k` exactly when `|s|` exceeds the mate bound,
with `k = ceil((MATE − |s|)/2) × sign(s)`, and `score cp s` otherwise;
and the mate encoding round-trips: a mate in `m` moves for the side to
move (an internal score of `MATE − (2m−1)` plies) formats as `mate m`, and
being mated in `m` moves (internal score `−(MATE − 2m)`) as `mate −m`. -/
theorem C6_mate_format (s : Int) (hs : |s| ≤ MATE_SCORE) :
    (MATE_BOUND < |s| →
      score_to_mate_moves s = some (spec_mate_moves s) ∧
        append_uci_score s = " score mate " ++ toString (spec_mate_moves s)) ∧
    (|s| ≤ MATE_BOUND →
      score_to_mate_moves s = none ∧
        append_uci_score s = " score cp " ++ toString s) ∧
    (∀ m : Int, 1 ≤ m → m ≤ 499 →
      score_to_mate_moves (MATE_SCORE - (2 * m - 1)) = some m ∧
        score_to_mate_moves (-(MATE_SCORE - 2 * m)) = some (-m)) := by
  have habs1 : s ≤ |s| := le_abs_self s
  have habs2 : -|s| ≤ s := neg_abs_le s
  refine ⟨?_, ?_, ?_⟩
  · intro hmate
    rcases abs_cases s with ⟨hval, hsign⟩ | ⟨hval, hsign⟩
    · have hgt : MATE_BOUND < s := by omega
      have hcode : score_to_mate_moves s = some (Int.tdiv (MATE_SCORE - s + 1) 2) := by
        unfold score_to_mate_moves
        rw [if_pos hgt]
      have hnum : (0 : Int) ≤ MATE_SCORE - s + 1 := by omega
      have hspec : spec_mate_moves s = Int.tdiv (MATE_SCORE - s + 1) 2 := by
        unfold spec_mate_moves
        rw [hval, Int.sign_eq_one_iff_pos.mpr (by simp only [MATE_BOUND, MATE_SCORE] at hgt; omega),
          mul_one, Int.fdiv_eq_ediv _ (by norm_num), Int.tdiv_eq_ediv hnum (by norm_num)]
      refine ⟨by rw [hcode, hspec], ?_⟩
      simp [append_uci_score, hcode, hspec]
    · have hlt : s < -MATE_BOUND := by omega
      have hnotgt : ¬ MATE_BOUND < s := by
        simp only [MATE_BOUND, MATE_SCORE] at hlt ⊢
        omega
      have hcode : score_to_mate_moves s = some (-Int.tdiv (MATE_SCORE + s + 1) 2) := by
        unfold score_to_mate_moves
        rw [if_neg hnotgt, if_pos hlt]
      have hnum : (0 : Int) ≤ MATE_SCORE + s + 1 := by omega
      have hspec : spec_mate_moves s = -Int.tdiv (MATE_SCORE + s + 1) 2 := by
        unfold spec_mate_moves
        rw [hval, Int.sign_eq_neg_one_iff_neg.mpr hsign,
          Int.fdiv_eq_ediv _ (by norm_num), Int.tdiv_eq_ediv hnum (by norm_num)]
        have hrw : MATE_SCORE - -s = MATE_SCORE + s := by ring
        rw [hrw, mul_neg_one]
      refine ⟨by rw [hcode, hspec], ?_⟩
      simp [append_uci_score, hcode, hspec]
  · intro hcp
    have hcode : score_to_mate_moves s = none := by
      unfold score_to_mate_moves
      rw [if_neg (by omega), if_neg (by omega)]
    exact ⟨hcode, by simp [append_uci_score, hcode]⟩
  · intro m hm1 hm2
    constructor
    · unfold score_to_mate_moves
      rw [if_pos (by simp only [MATE_BOUND, MATE_SCORE]; omega)]
      congr 1
      rw [Int.tdiv_eq_ediv (by simp only [MATE_SCORE]; omega) (by norm_num)]
      simp only [MATE_SCORE]
      omega
    · unfold score_to_mate_moves
      rw [if_neg (by simp only [MATE_BOUND, MATE_SCORE]; omega),
        if_pos (by simp only [MATE_BOUND, MATE_SCORE]; omega)]
      rw [Int.tdiv_eq_ediv (by simp only [MATE_SCORE]; omega) (by norm_num)]
      simp only [MATE_SCORE]
      congr 1
      omega

/-- Witness for C6: the score `MATE − 3` (mate in 3 plies) formats as
`mate 2` with the ceiling formula, and a quiet score formats as `cp`. -/
theorem C6_mate_format_witness :
    |(999997 : Int)| ≤ MATE_SCORE ∧
      score_to_mate_moves 999997 = some (spec_mate_moves 999997) ∧
      score_to_mate_moves 120 = none :=
  ⟨by decide, (((C6_mate_format 999997 (by decide)).1 (by decide))).1,
    ((C6_mate_format 120 (by decide)).2.1 (by decide)).1⟩

/-- Counterexample to C6 as stated: at the (unreachable but
representable) score `MATE + 4` the code emits `mate −1` while the claim's
ceiling formula demands `mate −2`. -/
theorem C6_countereg :
    score_to_mate_moves 1000004 = some (-1) ∧ spec_mate_moves 1000004 = -2 ∧
      ((-1 : Int) ≠ -2) := by decide

/-- C8: when a finished, non-suppressed search reports a best move that is
not legal in the searched position, the driver emits the first legal move
instead; when the position has no legal move at all it emits exactly
`bestmove 0000`. -/
theorem C8_bestmove_fallback (moveToUci : Nat → String) (legal : List Nat)
    (ok : Bool) (candidate : Nat) :
    (legal = [] → bestmoveLine moveToUci legal ok candidate = "bestmove 0000") ∧
    (∀ (m : Nat) (rest : List Nat), legal = m :: rest → candidate ∉ legal → ok = true →
      ensure_legal_or_fallback legal candidate = m ∧
        (m ≠ NO_MOVE →
          bestmoveLine moveToUci legal ok candidate = "bestmove " ++ moveToUci m)) := by
  constructor
  · intro h
    subst h
    cases ok <;> rfl
  · intro m rest hl hc hok
    subst hl
    subst hok
    have he : ensure_legal_or_fallback (m :: rest) candidate = m := by
      show (if candidate ∈ m :: rest then candidate else m) = m
      rw [if_neg hc]
    refine ⟨he, ?_⟩
    intro hm
    unfold bestmoveLine
    simp only [if_true, he]
    rw [if_neg hm]

/-- Witness for C8: an illegal candidate falls back to the first legal
move, and an empty move list yields `bestmove 0000`. -/
theorem C8_bestmove_fallback_witness :
    bestmoveLine (fun n => toString n) [] true 5 = "bestmove 0000" ∧
      ensure_legal_or_fallback [7, 9] 5 = 7 ∧
      bestmoveLine (fun n => toString n) [7, 9] true 5 =
        "bestmove " ++ toString 7 :=
  ⟨(C8_bestmove_fallback (fun n => toString n) [] true 5).1 rfl,
    ((C8_bestmove_fallback (fun n => toString n) [7, 9] true 5).2 7 [9] rfl
      (by decide) rfl).1,
    ((C8_bestmove_fallback (fun n => toString n) [7, 9] true 5).2 7 [9] rfl
      (by decide) rfl).2 (by decide)⟩

end FastEngine

namespace FastEngine

/-! Correctness of the bit-smearing `next_pow2`. -/

theorem smearStep_testBit (y k p : Nat) :
    (smearStep y k).testBit p = (y.testBit p || y.testBit (k + p)) := by
  simp [smearStep, Nat.testBit_lor, Nat.testBit_shiftRight]

/-- One smearing step doubles the span of bit positions that feed a bit of
the result. -/
theorem smear_span {y S : Nat} {c : Nat}
    (h : ∀ p, S.testBit p = true ↔ ∃ d, d ≤ c ∧ y.testBit (p + d) = true) :
    ∀ p, (smearStep S (c + 1)).testBit p = true ↔
      ∃ d, d ≤ 2 * c + 1 ∧ y.testBit (p + d) = true := by
  intro p
  rw [smearStep_testBit, Bool.or_eq_true, h p, h (c + 1 + p)]
  constructor
  · rintro (⟨d, hd, hbit⟩ | ⟨d, hd, hbit⟩)
    · exact ⟨d, by omega, hbit⟩
    · refine ⟨c + 1 + d, by omega, ?_⟩
      rw [show p + (c + 1 + d) = c + 1 + p + d by omega]
      exact hbit
  · rintro ⟨d, hd, hbit⟩
    by_cases hdc : d ≤ c
    · exact Or.inl ⟨d, hdc, hbit⟩
    · refine Or.inr ⟨d - (c + 1), by omega, ?_⟩
      rw [show c + 1 + p + (d - (c + 1)) = p + d by omega]
      exact hbit

/-- The full 64-bit smear makes bit `p` the OR of the 64 bits above and at
`p`. -/
theorem smear_testBit (y : Nat) :
    ∀ p, (smear y).testBit p = true ↔ ∃ d, d ≤ 63 ∧ y.testBit (p + d) = true := by
  have h0 : ∀ p, y.testBit p = true ↔ ∃ d, d ≤ 0 ∧ y.testBit (p + d) = true := by
    intro p
    constructor
    · intro h
      exact ⟨0, le_refl 0, by simpa using h⟩
    · rintro ⟨d, hd, hbit⟩
      have hd0 : d = 0 := Nat.le_zero.mp hd
      subst hd0
      simpa using hbit
  have h1 := smear_span (c := 0) h0
  have h2 := smear_span (c := 1) h1
  have h3 := smear_span (c := 3) h2
  have h4 := smear_span (c := 7) h3
  have h5 := smear_span (c := 15) h4
  have h6 := smear_span (c := 31) h5
  intro p
  simpa [smear] using h6 p

theorem testBit_log2_self {y : Nat} (hy : 1 ≤ y) : y.testBit y.log2 = true := by
  rw [Nat.testBit_to_div_mod]
  have h1 : 2 ^ y.log2 ≤ y := Nat.log2_self_le (by omega)
  have h2 : y < 2 ^ (y.log2 + 1) := Nat.lt_log2_self
  have hdiv : y / 2 ^ y.log2 = 1 := by
    apply Nat.div_eq_of_lt_le
    · simpa using h1
    · rw [pow_succ] at h2
      omega
  simp [hdiv]

/-- The smear of a nonzero 64-bit value is the all-ones mask up to and
including its top bit. -/
theorem smear_eq {y : Nat} (hy : 1 ≤ y) (hlt : y < 2 ^ 64) :
    smear y = 2 ^ (y.log2 + 1) - 1 := by
  have hL : y.log2 < 64 := (Nat.log2_lt (by omega)).mpr hlt
  apply Nat.eq_of_testBit_eq
  intro i
  rw [Nat.testBit_two_pow_sub_one]
  by_cases hi : i < y.log2 + 1
  · have htrue : (smear y).testBit i = true := by
      rw [smear_testBit]
      refine ⟨y.log2 - i, by omega, ?_⟩
      rw [show i + (y.log2 - i) = y.log2 by omega]
      exact testBit_log2_self hy
    simp [htrue, hi]
  · have hfalse : ¬ ((smear y).testBit i = true) := by
      rw [smear_testBit]
      rintro ⟨d, hd, hbit⟩
      have hylt : y < 2 ^ (i + d) := by
        calc y < 2 ^ (y.log2 + 1) := Nat.lt_log2_self
        _ ≤ 2 ^ (i + d) := Nat.pow_le_pow_right (by norm_num) (by omega)
      rw [Nat.testBit_lt_two_pow hylt] at hbit
      cases hbit
    rw [Bool.not_eq_true] at hfalse
    simp [hfalse, hi]

theorem log2_eq_of {y k : Nat} (h1 : 2 ^ k ≤ y) (h2 : y < 2 ^ (k + 1)) : y.log2 = k := by
  have h1y : 1 ≤ y := le_trans Nat.one_le_two_pow h1
  have ha : 2 ^ y.log2 ≤ y := Nat.log2_self_le (by omega)
  have hb : y < 2 ^ (y.log2 + 1) := Nat.lt_log2_self
  have hc : y.log2 < k + 1 := by
    by_contra hcon
    push_neg at hcon
    have : (2 : Nat) ^ (k + 1) ≤ 2 ^ y.log2 := Nat.pow_le_pow_right (by norm_num) hcon
    omega
  have hd : k < y.log2 + 1 := by
    by_contra hcon
    push_neg at hcon
    have : (2 : Nat) ^ (y.log2 + 1) ≤ 2 ^ k := Nat.pow_le_pow_right (by norm_num) hcon
    omega
  omega

/-- For `2 ≤ x ≤ 2^63`, `next_pow2 x` is the power of two with exponent
`log2(x−1) + 1`. -/
theorem next_pow2_eq {x : Nat} (h2 : 2 ≤ x) (hle : x ≤ 2 ^ 63) :
    next_pow2 x = 2 ^ ((x - 1).log2 + 1) := by
  have hpows : (2 : Nat) ^ 63 < 2 ^ 64 := by norm_num
  unfold next_pow2
  rw [if_neg (by omega)]
  have h1 : 1 ≤ x - 1 := by omega
  have hlt : x - 1 < 2 ^ 64 := by omega
  rw [smear_eq h1 hlt]
  have hL : (x - 1).log2 < 63 := (Nat.log2_lt (by omega)).mpr (by omega)
  have hone : 1 ≤ 2 ^ ((x - 1).log2 + 1) := Nat.one_le_two_pow
  rw [show 2 ^ ((x - 1).log2 + 1) - 1 + 1 = 2 ^ ((x - 1).log2 + 1) by omega]
  apply Nat.mod_eq_of_lt
  have : 2 ^ ((x - 1).log2 + 1) ≤ 2 ^ 63 := Nat.pow_le_pow_right (by norm_num) (by omega)
  simp only [SIZE_MOD]
  omega

theorem next_pow2_small {x : Nat} (h : x ≤ 1) : next_pow2 x = 1 := by
  unfold next_pow2
  rw [if_pos h]

theorem next_pow2_ge {x : Nat} (hle : x ≤ 2 ^ 63) : x ≤ next_pow2 x := by
  by_cases h2 : 2 ≤ x
  · rw [next_pow2_eq h2 hle]
    have := Nat.lt_log2_self (n := x - 1)
    omega
  · rw [next_pow2_small (by omega)]
    omega

theorem next_pow2_lt_two_mul {x : Nat} (h1 : 1 ≤ x) (hle : x ≤ 2 ^ 63) :
    next_pow2 x < 2 * x := by
  by_cases h2 : 2 ≤ x
  · rw [next_pow2_eq h2 hle]
    have hself : 2 ^ (x - 1).log2 ≤ x - 1 := Nat.log2_self_le (by omega)
    rw [pow_succ]
    omega
  · rw [next_pow2_small (by omega)]
    omega

theorem next_pow2_pow_self {k : Nat} (hk : k ≤ 63) : next_pow2 (2 ^ k) = 2 ^ k := by
  by_cases hk0 : k = 0
  · subst hk0
    exact next_pow2_small (by norm_num)
  · have hk1 : 1 ≤ k := by omega
    have h2k : 2 ≤ 2 ^ k := by
      calc (2 : Nat) = 2 ^ 1 := by norm_num
      _ ≤ 2 ^ k := Nat.pow_le_pow_right (by norm_num) hk1
    rw [next_pow2_eq h2k (Nat.pow_le_pow_right (by norm_num) hk)]
    have hlog : (2 ^ k - 1).log2 = k - 1 := by
      apply log2_eq_of
      · have ha : (2 : Nat) ^ (k - 1) < 2 ^ k :=
          Nat.pow_lt_pow_right (by norm_num) (by omega)
        omega
      · rw [show k - 1 + 1 = k by omega]
        have : 1 ≤ 2 ^ k := Nat.one_le_two_pow
        omega
    rw [hlog, show k - 1 + 1 = k by omega]

end FastEngine

namespace FastEngine

/-- C7 (amended): for every requested size `1 ≤ mb ≤ 4096` (the engine's
`Hash` option range), the table produced by `resize (entries_for_mb mb)`
has a power-of-two bucket count with mask `buckets − 1`, is
zero-initialized (every bucket is the empty bucket) with generation reset
to 1, and its storage satisfies
`buckets × sizeof(bucket) < 2 × mb × 2^20` — the original factor-one bound
fails because the bucket count is rounded UP to a power of two. -/
theorem C7_resize_shape (s0 : TTState) (mb : Nat) (hmb1 : 1 ≤ mb) (hmb2 : mb ≤ 4096) :
    (∃ k, (resize s0 (entries_for_mb mb)).table.length = 2 ^ k) ∧
    (resize s0 (entries_for_mb mb)).gen = 1 ∧
    (∀ b ∈ (resize s0 (entries_for_mb mb)).table, b = emptyBucket) ∧
    (resize s0 (entries_for_mb mb)).mask =
      (resize s0 (entries_for_mb mb)).table.length - 1 ∧
    (resize s0 (entries_for_mb mb)).table.length * BUCKET_BYTES <
      2 * (mb * 2 ^ 20) := by
  have h20 : (2 : Nat) ^ 20 = 1048576 := by norm_num
  have hb1 : mb * 1024 < SIZE_MOD := by
    simp only [SIZE_MOD]
    have : mb * 1024 ≤ 4096 * 1024 := by omega
    have : (4096 : Nat) * 1024 < 2 ^ 64 := by norm_num
    omega
  have hb2 : mb * 1024 * 1024 < SIZE_MOD := by
    simp only [SIZE_MOD]
    have : mb * 1024 * 1024 ≤ 4096 * 1024 * 1024 := by omega
    have : (4096 : Nat) * 1024 * 1024 < 2 ^ 64 := by norm_num
    omega
  have hbytes : mb * 1024 % SIZE_MOD * 1024 % SIZE_MOD = mb * 2 ^ 20 := by
    rw [Nat.mod_eq_of_lt hb1, Nat.mod_eq_of_lt hb2, h20]
    ring
  have hq2 : 2 ≤ mb * 2 ^ 20 / 48 := by
    have hmono : 2 ^ 20 / 48 ≤ mb * 2 ^ 20 / 48 :=
      Nat.div_le_div_right (by rw [h20]; omega)
    rw [h20] at hmono ⊢
    omega
  have hq63 : mb * 2 ^ 20 / 48 ≤ 2 ^ 63 := by
    have hmono : mb * 2 ^ 20 / 48 ≤ 4096 * 2 ^ 20 / 48 :=
      Nat.div_le_div_right (by rw [h20]; omega)
    have : (4096 : Nat) * 2 ^ 20 / 48 ≤ 2 ^ 63 := by norm_num
    omega
  set q := mb * 2 ^ 20 / 48 with hqdef
  obtain ⟨K, hK⟩ : ∃ k, next_pow2 q = 2 ^ k := by
    rw [next_pow2_eq hq2 hq63]
    exact ⟨_, rfl⟩
  have hBq : next_pow2 q < 2 * q := next_pow2_lt_two_mul (by omega) hq63
  have hB1 : 1 ≤ next_pow2 q := by
    rw [hK]; exact Nat.one_le_two_pow
  have hK63 : K ≤ 63 := by
    by_contra hcon
    push_neg at hcon
    have h1 : (2 : Nat) ^ 64 ≤ 2 ^ K := Nat.pow_le_pow_right (by norm_num) (by omega)
    have h2 : q ≤ 2 ^ 63 := hq63
    have h3 : (2 : Nat) ^ 63 < 2 ^ 64 := by norm_num
    omega
  have hM : SIZE_MOD = 18446744073709551616 := by simp [SIZE_MOD]
  have hq27 : q ≤ 89478485 := by
    have hmono : mb * 2 ^ 20 / 48 ≤ 4096 * 2 ^ 20 / 48 :=
      Nat.div_le_div_right (by rw [h20]; omega)
    have he : (4096 : Nat) * 2 ^ 20 / 48 = 89478485 := by norm_num
    omega
  have hentries : entries_for_mb mb = next_pow2 q * 4 := by
    simp only [entries_for_mb, CLUSTER_SIZE, BUCKET_BYTES]
    rw [if_neg (show ¬ mb < 1 by omega), hbytes, ← hqdef,
      if_neg (show ¬ q < 1 by omega)]
    apply Nat.mod_eq_of_lt
    omega
  have hresize : resize s0 (entries_for_mb mb) =
      { table := List.replicate (next_pow2 q) emptyBucket
        mask := next_pow2 q - 1
        capacity_entries := next_pow2 q * 4 % SIZE_MOD
        gen := 1 } := by
    rw [hentries]
    simp only [resize, CLUSTER_SIZE]
    rw [if_neg (show ¬ next_pow2 q * 4 < 4 by omega),
      show next_pow2 q * 4 / 4 = next_pow2 q from by omega,
      if_neg (show ¬ next_pow2 q < 1 by omega),
      hK, next_pow2_pow_self hK63, ← hK]
  rw [hresize]
  refine ⟨⟨K, by simpa using hK⟩, rfl, ?_, by simp, ?_⟩
  · intro b hb
    exact List.eq_of_mem_replicate hb
  · simp only [List.length_replicate, BUCKET_BYTES]
    have hq48 : q * 48 ≤ mb * 2 ^ 20 := by
      rw [hqdef]
      exact Nat.div_mul_le_self _ _
    have hmul : next_pow2 q * 48 < 2 * q * 48 := by
      have h48 : (0 : Nat) < 48 := by norm_num
      exact (Nat.mul_lt_mul_right h48).mpr hBq
    omega

/-- Witness for C7 at `mb = 1`. -/
theorem C7_resize_shape_witness :
    (1 : Nat) ≤ 1 ∧ (1 : Nat) ≤ 4096 ∧
      ((∃ k, (resize exEmpty (entries_for_mb 1)).table.length = 2 ^ k) ∧
        (resize exEmpty (entries_for_mb 1)).gen = 1 ∧
        (∀ b ∈ (resize exEmpty (entries_for_mb 1)).table, b = emptyBucket) ∧
        (resize exEmpty (entries_for_mb 1)).mask =
          (resize exEmpty (entries_for_mb 1)).table.length - 1 ∧
        (resize exEmpty (entries_for_mb 1)).table.length * BUCKET_BYTES <
          2 * (1 * 2 ^ 20)) :=
  ⟨le_refl 1, by norm_num, C7_resize_shape exEmpty 1 (le_refl 1) (by norm_num)⟩

/-- The bucket count produced by `resize`, as a function of the requested
entry count (no table materialisation). -/
theorem resize_length (s0 : TTState) (n : Nat) :
    (resize s0 n).table.length =
      next_pow2 (if (if n < 4 then 4 else n) / 4 < 1 then 1
        else (if n < 4 then 4 else n) / 4) := by
  simp only [resize, CLUSTER_SIZE, List.length_replicate]

/-- Counterexample to C7 as stated: at `mb = 1` the bucket count is
rounded up to 32768, whose 48-byte buckets occupy 1.5 MB — more than the
requested 1 MB. -/
theorem C7_countereg :
    (resize exEmpty (entries_for_mb 1)).table.length * BUCKET_BYTES = 1572864 ∧
      (1 : Nat) * 2 ^ 20 = 1048576 ∧ ¬ ((1572864 : Nat) ≤ 1048576) := by
  refine ⟨?_, by norm_num, by norm_num⟩
  have h1 : entries_for_mb 1 = 131072 := by decide
  rw [h1, resize_length]
  rw [if_neg (show ¬ (131072 : Nat) < 4 by norm_num),
    show (131072 : Nat) / 4 = 32768 from by norm_num,
    if_neg (show ¬ (32768 : Nat) < 1 by norm_num),
    show (32768 : Nat) = 2 ^ 15 from by norm_num,
    next_pow2_pow_self (by norm_num)]
  simp only [BUCKET_BYTES]
  norm_num

end FastEngine

